import Mathlib

/-!
# Verification of the AI_Object_Detector_TG_BOT pipeline (`src/bot.py`)

Shallow embedding of the image-fingerprint / model-selection / annotation
pipeline of `src/bot.py`:

* `extract_image_features` (lines 45-94): the fingerprint computation.
  Python floats are modelled as exact rationals (`ℚ`); Python `int()` is
  truncation toward zero (`pyInt`).  The OpenCV primitives the function
  calls (`cv2.cvtColor`-derived channel means, the Sobel gradient mean and
  the `cv2.threshold`/`cv2.findContours` contour areas) are external
  library code, modelled as an oracle `CV` of pure functions of the image
  (OpenCV is deterministic and stateless here); everything computed in
  `bot.py` itself is embedded literally.
* the model-selection step of `handle_photo` (lines 140-144): Python
  `dict` subscripting, which raises `KeyError` on a missing key.
* `draw_boxes` (lines 97-115): PIL drawing is modelled as a command log
  appended to the image; Python list subscripting `categories[lbl]`
  keeps Python's semantics (negative indices wrap, `IndexError` outside
  `[-len, len)`); the `f"... {score*100:.0f}%"` format is modelled as
  round-half-to-even on rationals.  A raised exception is modelled by the
  `Except` error result (the partially drawn copy it aborts is discarded
  by the caller either way).
-/

/-- `PyErr`: the Python exceptions this pipeline can raise. -/
inductive PyErr where
  | keyError : PyErr
  | indexError : PyErr
deriving DecidableEq, Repr

/-- Python `int()` on a real value: truncation toward zero. -/
def pyInt (q : ℚ) : ℤ :=
  if 0 ≤ q then ⌊q⌋ else ⌈q⌉

/-- Python `f"{x:.0f}"` rounding: round half to even (IEEE/`printf`
rounding), on the exact rational model of the float. -/
def roundHalfEven (q : ℚ) : ℤ :=
  if q - ⌊q⌋ = 1/2 then (if 2 ∣ ⌊q⌋ then ⌊q⌋ else ⌊q⌋ + 1) else round q

/-- Python list subscripting `xs[i]`: negative indices count from the
end; anything outside `[-len xs, len xs)` raises `IndexError`. -/
def pyListGet (xs : List String) (i : ℤ) : Except PyErr String :=
  let j : ℤ := if i < 0 then i + xs.length else i
  if h : 0 ≤ j ∧ j.toNat < xs.length then .ok (xs.get ⟨j.toNat, h.2⟩)
  else .error .indexError

/-- A decoded raster image as `np.array(image)` sees it: width, height,
number of channels (3 after the RGB conversion at the pipeline boundary,
1 for a grayscale array) and the flattened list of `uint8` intensities. -/
structure Img where
  w : ℕ
  h : ℕ
  channels : ℕ
  data : List ℕ
deriving DecidableEq, Repr

/-- Oracle for the OpenCV primitives `extract_image_features` calls.
Each field is a pure function of the image, reflecting that the OpenCV
routines used (`cvtColor`, `Sobel`, `threshold`+`findContours`,
`contourArea`) are deterministic and take no input other than the pixel
array:

* `meanSat` — `np.mean(hsv[:,:,1])` of the RGB→HSV conversion,
* `meanGrad` — `np.mean(gradient_magnitude)` of the Sobel magnitudes of
  the grayscale plane,
* `contourAreas` — `cv2.contourArea` of each contour returned by
  `cv2.findContours(binary, cv2.RETR_EXTERNAL, ...)` on the Otsu-binarized
  grayscale plane. -/
structure CV where
  meanSat : Img → ℚ
  meanGrad : Img → ℚ
  contourAreas : Img → List ℚ

/-- `img_hash = np.sum(img_array) % 1000 / 1000.0` (line 52). -/
def img_hash (img : Img) : ℚ :=
  ((img.data.sum % 1000 : ℕ) : ℚ) / 1000

/-- `saturation` (lines 54-63): mean HSV saturation / 255 for a 3-channel
array, `0.0` for a single-channel array. -/
def saturationOf (cv : CV) (img : Img) : ℚ :=
  if img.channels = 3 then cv.meanSat img / 255 else 0

/-- `detail_level = np.mean(gradient_magnitude) / 255.0` (line 69). -/
def detailLevel (cv : CV) (img : Img) : ℚ :=
  cv.meanGrad img / 255

/-- `significant_contours` (lines 74-75): contours whose area strictly
exceeds `min_area = (w * h) * 0.001`. -/
def significantContours (cv : CV) (img : Img) : List ℚ :=
  (cv.contourAreas img).filter (fun a => decide ((img.w * img.h : ℚ) * 0.001 < a))

/-- `num_objects = len(significant_contours)` (line 77). -/
def numObjects (cv : CV) (img : Img) : ℕ :=
  (significantContours cv img).length

/-- `mean_area` (lines 79-83): `np.mean(areas) / (w * h)` over the
significant contours if any exist, else the `0.1` default. -/
def meanArea (cv : CV) (img : Img) : ℚ :=
  if 0 < numObjects cv img then
    ((significantContours cv img).sum / (numObjects cv img : ℚ)) / (img.w * img.h : ℚ)
  else 0.1

/-- The fingerprint `extract_image_features` returns (lines 89-94): a
4-element list `[int, float, int, float]`, modelled as a typed record in
the fixed order `(num_objects_mod, mean_area_mod, categories_mod,
ratio_hw)`. -/
structure Fingerprint where
  num_objects_mod : ℤ
  mean_area_mod : ℚ
  categories_mod : ℤ
  ratio_hw : ℚ
deriving DecidableEq, Repr

/-- `extract_image_features` (lines 45-94), embedded literally:
`ratio_hw = h / w`; the perturbations of lines 85-87 use Python `int()`
(truncation), and the returned list clamps `mean_area_mod` with
`min(·, 1.0)` and `categories_mod` with `min(·, 10)` (lines 91-92).
`brightness` (lines 58/64) is computed by the source but unused in the
returned fingerprint, so it does not appear here. -/
def extract_image_features (cv : CV) (img : Img) : Fingerprint :=
  let ratio_hw : ℚ := (img.h : ℚ) / (img.w : ℚ)
  let ih := img_hash img
  let num_objects_mod : ℤ := max 1 (pyInt ((numObjects cv img : ℚ) * (0.8 + 0.4 * ih)))
  let mean_area_mod : ℚ := meanArea cv img * (0.7 + 0.6 * ih)
  let categories_mod : ℤ :=
    max 1 (pyInt (5 * saturationOf cv img + 3 * detailLevel cv img + 2 * ih))
  { num_objects_mod := num_objects_mod
    mean_area_mod := min mean_area_mod 1
    categories_mod := min categories_mod 10
    ratio_hw := ratio_hw }

/-- One entry of the `models_available` registry consumed by
`handle_photo`: the human-readable `name` and the label vocabulary
`categories` (the opaque `model` object itself plays no role in the
properties below). -/
structure ModelEntry where
  name : String
  categories : List String
deriving DecidableEq, Repr

/-- The keys of a Python `dict` modelled as an association list. -/
def dictKeys (d : List (String × ModelEntry)) : List String :=
  d.map Prod.fst

/-- Python `dict` subscripting `d[k]`: the value bound to `k`, raising
`KeyError` when `k` is not a key. -/
def dictGet (d : List (String × ModelEntry)) (k : String) : Except PyErr ModelEntry :=
  match d.find? (fun p => p.1 == k) with
  | some p => .ok p.2
  | none => .error .keyError

/-- The model-selection step of `handle_photo` (lines 140-142):
`chosen_key = selector.predict(df_feats)[0]` followed by
`model_info = models_available[chosen_key]`.  The pretrained decision
tree is opaque, modelled as an arbitrary function from fingerprints to
names; the subscript keeps Python `dict` semantics (`dictGet`). -/
def selectModel (selector : Fingerprint → String)
    (registry : List (String × ModelEntry)) (fp : Fingerprint) :
    Except PyErr ModelEntry :=
  dictGet registry (selector fp)

/-- A detection box, as `box.tolist()` unpacks it (line 106). -/
structure Box where
  x1 : ℚ
  y1 : ℚ
  x2 : ℚ
  y2 : ℚ
deriving DecidableEq, Repr

/-- One PIL drawing operation performed on an image: `draw.rectangle`
with an outline color and stroke width, or `draw.text` with a fill
color.  (The font object is not modelled: the `try/except` of lines
99-102 only picks which font renders the text, never fails, and does
not change which operations are performed.) -/
inductive DrawCmd where
  | rect (x1 y1 x2 y2 : ℚ) (outline : String) (width : ℕ)
  | text (x y : ℚ) (s : String) (fill : String)
deriving DecidableEq, Repr

/-- A PIL image object: its dimensions and the log of drawing operations
applied to it (drawing mutates pixels in place and never resizes; the
log records exactly the marks made on the underlying raster). -/
structure PImg where
  w : ℕ
  h : ℕ
  cmds : List DrawCmd
deriving DecidableEq, Repr

/-- The 8-direction outline offsets of line 111, in source order. -/
def offsets : List (ℤ × ℤ) :=
  [(-1, -1), (-1, 0), (-1, 1), (0, -1), (0, 1), (1, -1), (1, 0), (1, 1)]

/-- Line 108: `label = f"{categories[lbl]} {score*100:.0f}%"`.
Python list subscripting may raise `IndexError`; the `:.0f` conversion
rounds half to even. -/
def labelText (categories : List String) (lbl : ℤ) (score : ℚ) :
    Except PyErr String := do
  let name ← pyListGet categories lbl
  pure (name ++ " " ++ toString (roundHalfEven (score * 100)) ++ "%")

/-- `draw_boxes` (lines 97-115).  The loop zips `boxes, labels, scores`
(stopping at the shortest, as Python `zip` does), skips a detection when
`score < threshold` (line 104), else draws the rectangle (line 107),
computes the label text (line 108, may raise `IndexError`), draws the 8
offset outline copies (lines 111-112) and the white fill text (line
114).  A raised exception aborts the loop and propagates (`Except`
error); on success the function returns the image it drew on. -/
def draw_boxes (img : PImg) (boxes : List Box) (labels : List ℤ)
    (scores : List ℚ) (categories : List String) (threshold : ℚ) :
    Except PyErr PImg :=
  (boxes.zip (labels.zip scores)).foldlM
    (fun im t =>
      if t.2.2 < threshold then pure im
      else do
        let im1 : PImg :=
          { im with cmds := im.cmds ++ [DrawCmd.rect t.1.x1 t.1.y1 t.1.x2 t.1.y2 "lime" 3] }
        let label ← labelText categories t.2.1 t.2.2
        let im2 : PImg := offsets.foldl
          (fun acc d =>
            { acc with cmds := acc.cmds ++
                [DrawCmd.text (t.1.x1 + 3 + (d.1 : ℚ)) (t.1.y1 - 3 + (d.2 : ℚ)) label "black"] })
          im1
        pure { im2 with cmds := im2.cmds ++
            [DrawCmd.text (t.1.x1 + 3) (t.1.y1 - 3) label "white"] })
    img

/-- `image.copy()`: a fresh PIL image object with the same dimensions
and content. -/
def pyCopy (img : PImg) : PImg := img

/-- The drawing marks one kept detection contributes, in source order:
the lime rectangle, the 8 black outline texts, the white fill text. -/
def detCmds (b : Box) (label : String) : List DrawCmd :=
  DrawCmd.rect b.x1 b.y1 b.x2 b.y2 "lime" 3 ::
    (offsets.map (fun d =>
        DrawCmd.text (b.x1 + 3 + (d.1 : ℚ)) (b.y1 - 3 + (d.2 : ℚ)) label "black")
      ++ [DrawCmd.text (b.x1 + 3) (b.y1 - 3) label "white"])

/-- The annotation step of `handle_photo` (line 150):
`result_img = draw_boxes(image.copy(), ...)` with the default threshold
`0.5`.  The pair returned is (the object the variable `image` denotes
after the call, the value bound to `result_img`): `image.copy()`
allocates a distinct object and `draw_boxes` draws only on the object
passed to it, so the caller's image is the untouched original. -/
def handlePhotoAnnotate (image : PImg) (boxes : List Box) (labels : List ℤ)
    (scores : List ℚ) (categories : List String) :
    PImg × Except PyErr PImg :=
  (image, draw_boxes (pyCopy image) boxes labels scores categories 0.5)

/-- The `num_objects_mod` perturbation as the specification words it,
with rounding to the nearest integer:
`max(1, round(num_objects * (0.8 + 0.4*img_hash)))`.  Stated for
comparison against the source, which truncates. -/
def specNumObjectsMod (num_objects : ℕ) (ih : ℚ) : ℤ :=
  max 1 (round ((num_objects : ℚ) * (0.8 + 0.4 * ih)))

/-- The `num_objects_mod` perturbation as the source computes it
(line 85): `max(1, int(num_objects * (0.8 + 0.4 * img_hash)))`. -/
def codeNumObjectsMod (num_objects : ℕ) (ih : ℚ) : ℤ :=
  max 1 (pyInt ((num_objects : ℚ) * (0.8 + 0.4 * ih)))

/-- The `mean_area_mod` value as returned (lines 86, 91):
`min(mean_area * (0.7 + 0.6 * img_hash), 1.0)`. -/
def codeMeanAreaMod (mean_area ih : ℚ) : ℚ :=
  min (mean_area * (0.7 + 0.6 * ih)) 1

/-- The `categories_mod` value as returned (lines 87, 92), written in
the specification's nesting but with the source's `int()` truncation:
`max(1, min(int(5*saturation + 3*detail_level + 2*img_hash), 10))`. -/
def codeCategoriesMod (sat det ih : ℚ) : ℤ :=
  max 1 (min (pyInt (5 * sat + 3 * det + 2 * ih)) 10)

/-- Featureless OpenCV oracle for concrete witnesses: zero saturation,
zero gradient, no contours. -/
def cvA : CV :=
  { meanSat := fun _ => 0, meanGrad := fun _ => 0, contourAreas := fun _ => [] }

/-- A 1-by-1 single-channel black image. -/
def imgA : Img := { w := 1, h := 1, channels := 1, data := [0] }

/-- OpenCV oracle reporting two contours of areas 5 and 6 (both above
the significance cut-off of a 10-by-10 image, `0.1`). -/
def cvB : CV :=
  { meanSat := fun _ => 0, meanGrad := fun _ => 0, contourAreas := fun _ => [5, 6] }

/-- A 10-by-10 single-channel image whose pixel sum is 250, so that
`img_hash = 0.25`. -/
def imgB : Img :=
  { w := 10, h := 10, channels := 1, data := List.replicate 99 0 ++ [250] }

/-- A blank 100-by-100 canvas. -/
def pimgA : PImg := { w := 100, h := 100, cmds := [] }

/-- The detection box of the end-to-end scenario: `(10, 10, 50, 50)`. -/
def boxA : Box := { x1 := 10, y1 := 10, x2 := 50, y2 := 50 }

/-- A one-name label vocabulary. -/
def ctgsA : List String := ["person"]

/-- A two-name label vocabulary. -/
def ctgsB : List String := ["a", "b"]

/-- The canvas `pimgA` after one kept detection at `boxA` with label
text `"person 100%"` has been drawn. -/
def outA : PImg := { w := 100, h := 100, cmds := detCmds boxA "person 100%" }

lemma img_hash_nonneg (img : Img) : 0 ≤ img_hash img := by
  unfold img_hash
  positivity

lemma meanArea_nonneg (cv : CV) (img : Img) : 0 ≤ meanArea cv img := by
  unfold meanArea
  split
  · refine div_nonneg (div_nonneg (List.sum_nonneg ?_) (by positivity)) (by positivity)
    intro a ha
    unfold significantContours at ha
    have hmem := List.mem_filter.mp ha
    have hlt : (img.w * img.h : ℚ) * 0.001 < a := of_decide_eq_true hmem.2
    have hnn : (0:ℚ) ≤ (img.w * img.h : ℚ) * 0.001 := by positivity
    linarith
  · norm_num

/-- C1.  For every valid input image (`w ≥ 1`, `h ≥ 1`) and any OpenCV
oracle, the fingerprint `extract_image_features` returns satisfies
`num_objects_mod ≥ 1`, `0 ≤ mean_area_mod ≤ 1`, `1 ≤ categories_mod ≤
10`, and its `ratio_hw` component is exactly `h / w`, unclamped. -/
theorem extract_bounds (cv : CV) (img : Img) (hw : 1 ≤ img.w) (hh : 1 ≤ img.h) :
    1 ≤ (extract_image_features cv img).num_objects_mod ∧
    (0 ≤ (extract_image_features cv img).mean_area_mod ∧
      (extract_image_features cv img).mean_area_mod ≤ 1) ∧
    (1 ≤ (extract_image_features cv img).categories_mod ∧
      (extract_image_features cv img).categories_mod ≤ 10) ∧
    (extract_image_features cv img).ratio_hw = (img.h : ℚ) / (img.w : ℚ) := by
  have h0 : (0:ℚ) ≤ img_hash img := img_hash_nonneg img
  have hma : (0:ℚ) ≤ meanArea cv img := meanArea_nonneg cv img
  have hfac : (0:ℚ) ≤ 0.7 + 0.6 * img_hash img := by nlinarith
  simp only [extract_image_features]
  refine ⟨le_max_left _ _, ⟨le_min (mul_nonneg hma hfac) zero_le_one, min_le_right _ _⟩,
    ⟨?_, ?_⟩, trivial⟩
  · omega
  · omega

/-- C1 witness: the bounds hold at the concrete 1-by-1 image `imgA`
under the featureless oracle `cvA`. -/
theorem extract_bounds_witness :
    1 ≤ (extract_image_features cvA imgA).num_objects_mod ∧
    (0 ≤ (extract_image_features cvA imgA).mean_area_mod ∧
      (extract_image_features cvA imgA).mean_area_mod ≤ 1) ∧
    (1 ≤ (extract_image_features cvA imgA).categories_mod ∧
      (extract_image_features cvA imgA).categories_mod ≤ 10) ∧
    (extract_image_features cvA imgA).ratio_hw = (imgA.h : ℚ) / (imgA.w : ℚ) :=
  extract_bounds cvA imgA (by decide) (by decide)

/-- C2 counterexample: on the 10-by-10 image `imgB` (pixel sum 250, so
`img_hash = 0.25`) with two significant contours, the source's
`int(2 * 0.9) = 1` differs from the claimed `round(2 * 0.9) = 2`, so
`extract_image_features` does not compute
`num_objects_mod = max(1, round(num_objects * (0.8 + 0.4*img_hash)))`. -/
theorem extract_round_counterexample :
    (extract_image_features cvB imgB).num_objects_mod ≠
      specNumObjectsMod (numObjects cvB imgB) (img_hash imgB) := by
  have hh : img_hash imgB = 1/4 := by
    simp only [img_hash, imgB]
    norm_num
  have hno : numObjects cvB imgB = 2 := by
    norm_num [numObjects, significantContours, cvB, imgB, List.filter_cons]
  simp only [extract_image_features, specNumObjectsMod, hh, hno]
  have h1 : pyInt ((2 : ℚ) * (0.8 + 0.4 * (1/4))) = 1 := by norm_num [pyInt]
  have h2 : round ((2 : ℚ) * (0.8 + 0.4 * (1/4))) = 2 := by norm_num [round_eq]
  push_cast
  rw [h1, h2]
  omega

/-- C2 (amended).  `extract_image_features` computes the perturbed
features with Python `int()` truncation toward zero rather than
rounding to the nearest integer:
`num_objects_mod = max(1, int(num_objects * (0.8 + 0.4*img_hash)))`,
`mean_area_mod = min(mean_area * (0.7 + 0.6*img_hash), 1.0)`, and
`categories_mod = max(1, min(int(5*saturation + 3*detail_level +
2*img_hash), 10))`. -/
theorem extract_formulas (cv : CV) (img : Img) :
    (extract_image_features cv img).num_objects_mod
        = codeNumObjectsMod (numObjects cv img) (img_hash img) ∧
    (extract_image_features cv img).mean_area_mod
        = codeMeanAreaMod (meanArea cv img) (img_hash img) ∧
    (extract_image_features cv img).categories_mod
        = codeCategoriesMod (saturationOf cv img) (detailLevel cv img) (img_hash img) := by
  refine ⟨rfl, rfl, ?_⟩
  simp only [extract_image_features, codeCategoriesMod]
  omega

/-- C3.  `extract_image_features` is deterministic: with the (pure,
stateless) OpenCV primitives fixed, byte-identical pixel content gives
identical fingerprints — the result is a function of the image alone,
with no randomness or hidden state in the source (the "randomness" of
the comment on line 44 is the content-derived `img_hash`). -/
theorem extract_deterministic (cv : CV) (img1 img2 : Img) (h : img1 = img2) :
    extract_image_features cv img1 = extract_image_features cv img2 :=
  congrArg (extract_image_features cv) h

/-- C3 witness: determinism at the concrete image `imgA`. -/
theorem extract_deterministic_witness :
    extract_image_features cvA imgA = extract_image_features cvA imgA :=
  extract_deterministic cvA imgA imgA rfl

/-- C4.  The model-selection step either returns an entry whose key the
predicted name is — a key of the loaded registry — or raises `KeyError`
when the predicted name is absent; it never silently falls back to a
default model. -/
theorem selectModel_total (selector : Fingerprint → String)
    (registry : List (String × ModelEntry)) (fp : Fingerprint) :
    (selector fp ∈ dictKeys registry ∧
      ∃ e, selectModel selector registry fp = .ok e ∧ (selector fp, e) ∈ registry) ∨
    (selector fp ∉ dictKeys registry ∧
      selectModel selector registry fp = .error .keyError) := by
  unfold selectModel dictGet dictKeys
  cases hfind : registry.find? (fun p => p.1 == selector fp) with
  | none =>
    right
    refine ⟨?_, rfl⟩
    intro hmem
    obtain ⟨p, hp, hkey⟩ := List.mem_map.mp hmem
    have := List.find?_eq_none.mp hfind p hp
    simp [hkey] at this
  | some p =>
    left
    have hkey : p.1 = selector fp := by
      have := List.find?_some hfind
      simpa using this
    have hmem : p ∈ registry := List.mem_of_find?_eq_some hfind
    refine ⟨List.mem_map.mpr ⟨p, hmem, hkey⟩, p.2, rfl, ?_⟩
    rw [← hkey]
    exact hmem

lemma exceptPure {α : Type} (a : α) : (pure a : Except PyErr α) = .ok a := rfl

lemma exceptBind_ok {α β : Type} (a : α) (f : α → Except PyErr β) :
    (Except.ok a >>= f : Except PyErr β) = f a := rfl

lemma exceptBind_err {α β : Type} (e : PyErr) (f : α → Except PyErr β) :
    ((Except.error e : Except PyErr α) >>= f) = .error e := rfl

lemma offsetsFoldl (im : PImg) (x1 y1 : ℚ) (label : String) :
    offsets.foldl (fun acc d =>
        { acc with cmds := acc.cmds ++
            [DrawCmd.text (x1 + 3 + (d.1 : ℚ)) (y1 - 3 + (d.2 : ℚ)) label "black"] }) im
      = { im with cmds := im.cmds ++ offsets.map (fun d =>
            DrawCmd.text (x1 + 3 + (d.1 : ℚ)) (y1 - 3 + (d.2 : ℚ)) label "black") } := by
  simp [offsets, List.append_assoc]

lemma draw_boxes_nil_boxes (img : PImg) (ls : List ℤ) (ss : List ℚ)
    (cats : List String) (t : ℚ) : draw_boxes img [] ls ss cats t = .ok img := rfl

lemma draw_boxes_nil_labels (img : PImg) (bs : List Box) (ss : List ℚ)
    (cats : List String) (t : ℚ) : draw_boxes img bs [] ss cats t = .ok img := by
  simp [draw_boxes, exceptPure]

lemma draw_boxes_nil_scores (img : PImg) (bs : List Box) (ls : List ℤ)
    (cats : List String) (t : ℚ) : draw_boxes img bs ls [] cats t = .ok img := by
  simp [draw_boxes, exceptPure]

lemma draw_boxes_cons_skip (img : PImg) (b : Box) (bs : List Box) (lbl : ℤ)
    (ls : List ℤ) (s : ℚ) (ss : List ℚ) (cats : List String) (t : ℚ)
    (hs : s < t) :
    draw_boxes img (b :: bs) (lbl :: ls) (s :: ss) cats t
      = draw_boxes img bs ls ss cats t := by
  simp only [draw_boxes, List.zip_cons_cons, List.foldlM_cons, if_pos hs]
  rfl

lemma draw_boxes_cons_kept (img : PImg) (b : Box) (bs : List Box) (lbl : ℤ)
    (ls : List ℤ) (s : ℚ) (ss : List ℚ) (cats : List String) (t : ℚ)
    (label : String) (hs : ¬ s < t) (hl : labelText cats lbl s = .ok label) :
    draw_boxes img (b :: bs) (lbl :: ls) (s :: ss) cats t
      = draw_boxes { img with cmds := img.cmds ++ detCmds b label } bs ls ss cats t := by
  simp only [draw_boxes, List.zip_cons_cons, List.foldlM_cons, if_neg hs, hl,
    exceptBind_ok, offsetsFoldl, exceptPure]
  congr 1
  simp [detCmds, List.append_assoc]

lemma draw_boxes_cons_err (img : PImg) (b : Box) (bs : List Box) (lbl : ℤ)
    (ls : List ℤ) (s : ℚ) (ss : List ℚ) (cats : List String) (t : ℚ)
    (e : PyErr) (hs : ¬ s < t) (hl : labelText cats lbl s = .error e) :
    draw_boxes img (b :: bs) (lbl :: ls) (s :: ss) cats t = .error e := by
  simp only [draw_boxes, List.zip_cons_cons, List.foldlM_cons, if_neg hs, hl,
    exceptBind_err]

lemma draw_boxes_dims (boxes : List Box) : ∀ (labels : List ℤ) (scores : List ℚ)
    (img : PImg) (cats : List String) (t : ℚ) (out : PImg),
    draw_boxes img boxes labels scores cats t = .ok out →
    out.w = img.w ∧ out.h = img.h := by
  induction boxes with
  | nil =>
    intro labels scores img cats t out h
    rw [draw_boxes_nil_boxes] at h
    cases h
    exact ⟨rfl, rfl⟩
  | cons b bs ih =>
    intro labels scores img cats t out h
    cases labels with
    | nil =>
      rw [draw_boxes_nil_labels] at h
      cases h
      exact ⟨rfl, rfl⟩
    | cons lbl ls =>
      cases scores with
      | nil =>
        rw [draw_boxes_nil_scores] at h
        cases h
        exact ⟨rfl, rfl⟩
      | cons s ss =>
        by_cases hs : s < t
        · rw [draw_boxes_cons_skip img b bs lbl ls s ss cats t hs] at h
          exact ih ls ss img cats t out h
        · cases hl : labelText cats lbl s with
          | error e =>
            rw [draw_boxes_cons_err img b bs lbl ls s ss cats t e hs hl] at h
            cases h
          | ok label =>
            rw [draw_boxes_cons_kept img b bs lbl ls s ss cats t label hs hl] at h
            exact ih ls ss { img with cmds := img.cmds ++ detCmds b label } cats t out h

lemma roundHalfEven_nearest (q : ℚ) : |(roundHalfEven q : ℚ) - q| ≤ 1/2 := by
  unfold roundHalfEven
  split
  · next hfr =>
    have hfl := Int.floor_le q
    split
    · rw [abs_le]
      constructor <;> linarith
    · rw [abs_le]
      push_cast
      constructor <;> linarith
  · rw [abs_sub_comm]
    exact abs_sub_round q

lemma pyListGet_oob (xs : List String) (i : ℤ)
    (h : (xs.length : ℤ) ≤ i ∨ i < -(xs.length : ℤ)) :
    pyListGet xs i = .error .indexError := by
  simp only [pyListGet]
  rw [dif_neg]
  by_cases hi : i < 0
  · simp only [if_pos hi]
    omega
  · simp only [if_neg hi]
    omega

lemma zip3_take {α β γ : Type} (l1 : List α) (l2 : List β) (l3 : List γ) :
    l1.zip (l2.zip l3) =
      (l1.take (min (min l1.length l2.length) l3.length)).zip
        ((l2.take (min (min l1.length l2.length) l3.length)).zip
          (l3.take (min (min l1.length l2.length) l3.length))) := by
  induction l1 generalizing l2 l3 with
  | nil => simp
  | cons a l1 ih =>
    cases l2 with
    | nil => simp
    | cons b l2 =>
      cases l3 with
      | nil => simp
      | cons c l3 =>
        simp only [List.length_cons]
        have hmin : min (min (l1.length + 1) (l2.length + 1)) (l3.length + 1)
            = min (min l1.length l2.length) l3.length + 1 := by omega
        rw [hmin]
        simp only [List.take_succ_cons, List.zip_cons_cons]
        exact congrArg _ (ih l2 l3)

/-- C5.  In `draw_boxes`, a detection with `score < threshold` is
skipped entirely (it contributes no drawing operation), and a detection
with `score ≥ threshold` — the boundary `score = threshold` included,
since the source tests `score < threshold` — contributes exactly
`detCmds`: its rectangle and its text label. -/
theorem draw_boxes_threshold (img : PImg) (b : Box) (bs : List Box) (lbl : ℤ)
    (ls : List ℤ) (s : ℚ) (ss : List ℚ) (cats : List String) (t : ℚ) :
    (s < t → draw_boxes img (b :: bs) (lbl :: ls) (s :: ss) cats t
        = draw_boxes img bs ls ss cats t) ∧
    (¬ s < t → ∀ label, labelText cats lbl s = .ok label →
        draw_boxes img (b :: bs) (lbl :: ls) (s :: ss) cats t
          = draw_boxes { img with cmds := img.cmds ++ detCmds b label } bs ls ss cats t) ∧
    ∀ label, DrawCmd.rect b.x1 b.y1 b.x2 b.y2 "lime" 3 ∈ detCmds b label ∧
      DrawCmd.text (b.x1 + 3) (b.y1 - 3) label "white" ∈ detCmds b label := by
  refine ⟨fun hs => draw_boxes_cons_skip img b bs lbl ls s ss cats t hs,
    fun hs label hl => draw_boxes_cons_kept img b bs lbl ls s ss cats t label hs hl,
    fun label => ⟨?_, ?_⟩⟩
  · simp [detCmds]
  · simp [detCmds, offsets]

/-- C5 witness: at the inclusive boundary `score = threshold = 0.5`,
the detection is drawn. -/
theorem draw_boxes_threshold_witness :
    draw_boxes pimgA [boxA] [0] [(1/2 : ℚ)] ctgsA (1/2)
      = draw_boxes { pimgA with cmds := pimgA.cmds ++ detCmds boxA "person 50%" }
          [] [] [] ctgsA (1/2) := by
  have hre : roundHalfEven ((1/2 : ℚ) * 100) = 50 := by norm_num [roundHalfEven, round_eq]
  have hl : labelText ctgsA 0 (1/2) = .ok "person 50%" := by
    unfold labelText
    simp only [hre]
    rfl
  exact (draw_boxes_threshold pimgA boxA [] 0 [] (1/2) [] ctgsA (1/2)).2.1
    (by norm_num) "person 50%" hl

/-- C6.  The annotation step of `handle_photo` never mutates the image
object it is given: `draw_boxes` draws on the fresh copy, the caller's
image is returned untouched; and when drawing succeeds the annotated
image has the same width and height as the input. -/
theorem handlePhotoAnnotate_preserves (image : PImg) (boxes : List Box)
    (labels : List ℤ) (scores : List ℚ) (cats : List String) :
    (handlePhotoAnnotate image boxes labels scores cats).1 = image ∧
    ∀ out, (handlePhotoAnnotate image boxes labels scores cats).2 = .ok out →
      out.w = image.w ∧ out.h = image.h :=
  ⟨rfl, fun out h => draw_boxes_dims boxes labels scores (pyCopy image) cats 0.5 out h⟩

/-- C6 witness: one kept detection on the 100-by-100 canvas leaves the
original canvas untouched and the annotated result 100-by-100. -/
theorem handlePhotoAnnotate_preserves_witness :
    (handlePhotoAnnotate pimgA [boxA] [0] [(1 : ℚ)] ctgsA).1 = pimgA ∧
      (outA.w = pimgA.w ∧ outA.h = pimgA.h) := by
  have hre : roundHalfEven ((1 : ℚ) * 100) = 100 := by norm_num [roundHalfEven, round_eq]
  have hl : labelText ctgsA 0 1 = .ok "person 100%" := by
    unfold labelText
    simp only [hre]
    rfl
  have hok : (handlePhotoAnnotate pimgA [boxA] [0] [(1 : ℚ)] ctgsA).2 = .ok outA := by
    show draw_boxes (pyCopy pimgA) [boxA] [0] [1] ctgsA 0.5 = .ok outA
    rw [draw_boxes_cons_kept (pyCopy pimgA) boxA [] 0 [] 1 [] ctgsA 0.5 "person 100%"
      (by norm_num) hl]
    rfl
  exact ⟨(handlePhotoAnnotate_preserves pimgA [boxA] [0] [(1 : ℚ)] ctgsA).1,
    (handlePhotoAnnotate_preserves pimgA [boxA] [0] [(1 : ℚ)] ctgsA).2 outA hok⟩

/-- C7 counterexample: `label = -1` lies outside the vocabulary range
`[0, len)` of `ctgsB = ["a", "b"]`, yet `draw_boxes` raises nothing —
Python's negative indexing silently maps it to the last category, and
the drawn text reads `"b 100%"`. -/
theorem draw_boxes_negative_label_counterexample :
    draw_boxes pimgA [boxA] [(-1 : ℤ)] [(1 : ℚ)] ctgsB (1/2)
      = .ok { pimgA with cmds := pimgA.cmds ++ detCmds boxA "b 100%" } := by
  have hre : roundHalfEven ((1 : ℚ) * 100) = 100 := by norm_num [roundHalfEven, round_eq]
  have hl : labelText ctgsB (-1) 1 = .ok "b 100%" := by
    unfold labelText
    simp only [hre]
    rfl
  rw [draw_boxes_cons_kept pimgA boxA [] (-1) [] 1 [] ctgsB (1/2) "b 100%"
    (by norm_num) hl]
  rfl

/-- C7 (amended).  A label index outside Python's list-index range —
`lbl ≥ len(categories)` or `lbl < -len(categories)` — raises
`IndexError` inside `draw_boxes` (when its detection is at or above the
threshold), and the exception propagates out rather than being silently
ignored; an index in `[-len, -1]`, however, is silently mapped to
`categories[len + lbl]` by Python list semantics. -/
theorem draw_boxes_label_oob (img : PImg) (b : Box) (bs : List Box) (lbl : ℤ)
    (ls : List ℤ) (s : ℚ) (ss : List ℚ) (cats : List String) (t : ℚ)
    (hs : ¬ s < t)
    (hoob : (cats.length : ℤ) ≤ lbl ∨ lbl < -(cats.length : ℤ)) :
    draw_boxes img (b :: bs) (lbl :: ls) (s :: ss) cats t = .error .indexError := by
  have hl : labelText cats lbl s = .error .indexError := by
    unfold labelText
    rw [pyListGet_oob cats lbl hoob]
    rfl
  exact draw_boxes_cons_err img b bs lbl ls s ss cats t .indexError hs hl

/-- C7 witness: label index 5 against the two-name vocabulary raises
`IndexError`. -/
theorem draw_boxes_label_oob_witness :
    draw_boxes pimgA [boxA] [(5 : ℤ)] [(1 : ℚ)] ctgsB (1/2) = .error .indexError :=
  draw_boxes_label_oob pimgA boxA [] 5 [] 1 [] ctgsB (1/2) (by norm_num) (by decide)

/-- C9.  Every drawn label text is the category name Python indexing
yields for the label, a space, and `score*100` rounded to a nearest
integer (the `:.0f` conversion, within 1/2 of the exact value), then a
percent sign; in particular label `0` with score `0.9` on the
vocabulary `["person"]` renders `"person 90%"`. -/
theorem labelText_spec (cats : List String) (lbl : ℤ) (s : ℚ) (txt : String)
    (h : labelText cats lbl s = .ok txt) :
    (∃ name, pyListGet cats lbl = .ok name ∧
        txt = name ++ " " ++ toString (roundHalfEven (s * 100)) ++ "%" ∧
        |(roundHalfEven (s * 100) : ℚ) - s * 100| ≤ 1/2) ∧
    (cats = ctgsA → lbl = 0 → s = 9/10 → txt = "person 90%") := by
  unfold labelText at h
  cases hp : pyListGet cats lbl with
  | error e =>
    rw [hp, exceptBind_err] at h
    cases h
  | ok name =>
    rw [hp, exceptBind_ok, exceptPure] at h
    have htxt : txt = name ++ " " ++ toString (roundHalfEven (s * 100)) ++ "%" :=
      (Except.ok.inj h).symm
    refine ⟨⟨name, rfl, htxt, roundHalfEven_nearest (s * 100)⟩, ?_⟩
    intro hc h0 hs
    subst hc h0 hs
    have hre : roundHalfEven ((9/10 : ℚ) * 100) = 90 := by
      norm_num [roundHalfEven, round_eq]
    have hname : name = "person" := by
      have : pyListGet ctgsA 0 = .ok "person" := rfl
      rw [this] at hp
      exact (Except.ok.inj hp).symm
    rw [htxt, hname, hre]
    rfl

/-- C9 witness: the general description holds at the concrete call
`labelText ["person"] 0 0.9 = .ok "person 90%"`. -/
theorem labelText_spec_witness :
    (∃ name, pyListGet ctgsA 0 = .ok name ∧
        "person 90%" = name ++ " " ++ toString (roundHalfEven ((9/10 : ℚ) * 100)) ++ "%" ∧
        |(roundHalfEven ((9/10 : ℚ) * 100) : ℚ) - (9/10 : ℚ) * 100| ≤ 1/2) ∧
    (ctgsA = ctgsA → (0 : ℤ) = 0 → (9/10 : ℚ) = 9/10 → "person 90%" = "person 90%") := by
  have hre : roundHalfEven ((9/10 : ℚ) * 100) = 90 := by
    norm_num [roundHalfEven, round_eq]
  have hl : labelText ctgsA 0 (9/10) = .ok "person 90%" := by
    unfold labelText
    simp only [hre]
    rfl
  exact labelText_spec ctgsA 0 (9/10) "person 90%" hl

/-- C10.  Called with `boxes`, `labels`, `scores` of unequal lengths,
`draw_boxes` behaves exactly as if each sequence were truncated to the
shortest length: Python's `zip` stops at the shortest sequence, the
surplus elements are silently ignored, and the length mismatch itself
raises no error. -/
theorem draw_boxes_ignores_surplus (img : PImg) (boxes : List Box) (labels : List ℤ)
    (scores : List ℚ) (cats : List String) (t : ℚ) :
    draw_boxes img boxes labels scores cats t =
      draw_boxes img
        (boxes.take (min (min boxes.length labels.length) scores.length))
        (labels.take (min (min boxes.length labels.length) scores.length))
        (scores.take (min (min boxes.length labels.length) scores.length)) cats t := by
  unfold draw_boxes
  rw [← zip3_take]
